import Mathlib

/-!
Verification of the Pinceau sentence-matching / grouping / slicing
pipeline (findref.py, slicer.py and the "findref copy.py" variant
appended to config_transcribe.py).  Timestamps are modelled as
rationals, Python strings as Lean strings (character lists for slicing
and substring tests), fallible control flow as explicit result types,
and the in-place mutation happening through findref's shallow dict copy
as explicit state passing.
-/

/-- One findref hit record, the dict with keys folder, file, start, end,
sentences built in findref.py lines 51-57.  The same shape is reused for
the merged groups of lines 62-71 and for the entries slicer.py reads back
from the intermediate JSON. -/
structure Hit where
  folder : String
  file : String
  start : ℚ
  «end» : ℚ
  sentences : List String
  deriving DecidableEq

/-- Python substring test `s in txt` on strings. -/
def pyIn (s txt : String) : Bool := decide (s.toList <:+: txt.toList)

/-- One transcript segment as findref.py reads it in lines 47-55: the
text, start and end fields of one entry of a sentence-level JSON file. -/
structure Seg where
  text : String
  start : ℚ
  «end» : ℚ
  deriving DecidableEq

/-- Substring-mode matching, findref.py lines 47-57: for one segment,
found is the list of query sentences occurring in the segment text, and
when it is nonempty one hit spanning the whole segment is appended.  The
Python set S is modelled as a list; only membership in found matters. -/
def segHits (folder file : String) (S : List String) (seg : Seg) : List Hit :=
  let found := S.filter (fun s => pyIn s seg.text)
  if found.isEmpty then [] else [⟨folder, file, seg.start, seg.«end», found⟩]

/-- Substring-mode matching over a whole file, the segment loop of
findref.py lines 47-57. -/
def fileHits (folder file : String) (S : List String) (segs : List Seg) : List Hit :=
  segs.flatMap (segHits folder file S)

/-- The merge sweep body, findref.py lines 64-70.  cur is the current
group; a next hit whose start is within thr of cur's end is absorbed
(the end takes the running max, the sentences are concatenated),
otherwise cur is emitted and the next hit seeds a new group. -/
def groupHitsAux (thr : ℚ) (cur : Hit) : List Hit → List Hit
  | [] => [cur]
  | nxt :: rest =>
    if nxt.start - cur.«end» ≤ thr then
      groupHitsAux thr ⟨cur.folder, cur.file, cur.start, max cur.«end» nxt.«end»,
        cur.sentences ++ nxt.sentences⟩ rest
    else
      cur :: groupHitsAux thr nxt rest

/-- The grouping stage, findref.py lines 61-71: group the sorted hits;
empty input yields the empty output list. -/
def groupHits (thr : ℚ) : List Hit → List Hit
  | [] => []
  | h :: rest => groupHitsAux thr h rest

/-- Running end of a group run: the maximum of the seed's end and the
absorbed members' ends.  This is the value held by the end key of the
current group dict in findref.py line 66. -/
def runEnd (h : Hit) (ms : List Hit) : ℚ := ms.foldl (fun e n => max e n.«end») h.«end»

/-- Sentence list accumulated by a group run, findref.py line 67. -/
def runSentences (h : Hit) (ms : List Hit) : List String :=
  ms.foldl (fun s n => s ++ n.sentences) h.sentences

/-- The group a run collapses to: the seed's folder, file and start, the
running-max end, and the concatenated sentence lists. -/
def mergeRun (h : Hit) (ms : List Hit) : Hit :=
  ⟨h.folder, h.file, h.start, runEnd h ms, runSentences h ms⟩

/-- Decomposition of the sweep into runs of (seed, absorbed members): a
hit joins the current run exactly when its start minus the run's
running-max end is at most the threshold; otherwise it seeds a new run. -/
def groupRunsAux (thr : ℚ) (h : Hit) (ms : List Hit) : List Hit → List (Hit × List Hit)
  | [] => [(h, ms)]
  | nxt :: rest =>
    if nxt.start - runEnd h ms ≤ thr then
      groupRunsAux thr h (ms ++ [nxt]) rest
    else
      (h, ms) :: groupRunsAux thr nxt [] rest

/-- One full run of findref's grouping stage together with the state of
the input list after it.  In findref.py line 63, cur = hits[0].copy() is
a shallow dict copy: the sentences value of cur is the same list object
as the seed hit's, so the extend call in line 67 also mutates the seed
entry of the input list, while the assignment to cur's end key in line
66 rebinds a key of the copy only.  First component: the emitted groups;
second component: the input hits as the run leaves them (each run's seed
now carries the extended sentences list, every other field unchanged). -/
def groupHitsRun (thr : ℚ) : List Hit → List Hit × List Hit
  | [] => ([], [])
  | h :: rest =>
    let runs := groupRunsAux thr h [] rest
    (runs.map (fun p => mergeRun p.1 p.2),
     runs.flatMap (fun p =>
       ⟨p.1.folder, p.1.file, p.1.start, p.1.«end», runSentences p.1 p.2⟩ :: p.2))

/-- Configured inter-clip silence target, config_transcribe.py line 20. -/
def SILENCE_BETWEEN_CLIPS_S : ℚ := 7/10

/-- Base-name derivation, slicer.py lines 67-68: when the folder name
ends with the suffix "_files", drop its last six characters, else keep
it (the slice fld[:-6] guarded by fld.endswith("_files")). -/
def stripFiles (fld : String) : String :=
  if "_files".toList.isSuffixOf fld.toList then
    String.mk (fld.toList.take (fld.toList.length - 6))
  else fld

/-- Source video path, slicer.py line 69: join the folder with the
derived base name plus the mp4 extension. -/
def videoPath (fld : String) : String := fld ++ "/" ++ stripFiles fld ++ ".mp4"

/-- A padded cut descriptor: the source path handed to cut_segment and
the padded bounds, slicer.py lines 96-110. -/
structure Cut where
  src : String
  cs : ℚ
  ce : ℚ
  deriving DecidableEq

/-- The padding and cutting stage, slicer.py lines 93-110.  keyed models
the lookup keyed_map.get(orig, orig); every entry yields exactly one cut
with cs = max(0, start - halfSil) and ce = end + halfSil. -/
def slicerCuts (halfSil : ℚ) (keyed : String → String) (entries : List Hit) : List Cut :=
  entries.map (fun e =>
    ⟨keyed (videoPath e.folder), max 0 (e.start - halfSil), e.«end» + halfSil⟩)

/-- Python dict setdefault-and-append, insertion ordered: append t to the
bucket of k, creating the bucket at the end when the key is absent
(slicer.py line 73). -/
def addTime : List (String × List ℚ) → String → ℚ → List (String × List ℚ)
  | [], k, t => [(k, [t])]
  | (k', v) :: r, k, t =>
    if k' = k then (k', v ++ [t]) :: r else (k', v) :: addTime r k t

/-- Bucket lookup in the insertion-ordered dict model. -/
def lookupTimes : List (String × List ℚ) → String → List ℚ
  | [], _ => []
  | (k', v) :: r, src => if k' = src then v else lookupTimes r src

/-- Keyframe-time collection, slicer.py lines 63-73: per existing source
video, the raw start timestamps of its entries, in entry order.  ex
models the os.path.isfile check of line 70; force_keyframes later passes
the sorted deduplication of each bucket to ffmpeg, which leaves the set
of forced timestamps unchanged. -/
def videoTimes (ex : String → Bool) (entries : List Hit) : List (String × List ℚ) :=
  entries.foldl
    (fun m e =>
      let p := videoPath e.folder
      if ex p then addTime m p e.start else m) []

/-- Exit status and stderr message of a terminating interpreter exit. -/
structure ExitInfo where
  code : ℕ
  msg : String
  deriving DecidableEq

/-- Python sys.exit applied to a string argument: the message is printed
to stderr and the interpreter exits with status 1, not 0. -/
def sysExitStr (msg : String) : ExitInfo := ⟨1, msg⟩

inductive SlicerOutcome where
  | exit (e : ExitInfo)
  | completed (cuts : List Cut) (finalOut : String)
  deriving DecidableEq

/-- Outcome skeleton of slicer.py main, lines 59-131: the empty-entries
early exit of lines 60-61, the per-entry cut loop (which appends one cut
for every entry, lines 96-110), the no-cuts exit of lines 112-114 and
the final concatenation, modelled as completion. -/
def slicerRun (keyed : String → String) (entries : List Hit)
    (finalOut : String) : SlicerOutcome :=
  if entries.isEmpty then
    .exit (sysExitStr "ℹ No segments found → nothing to cut.")
  else
    let cuts := slicerCuts (SILENCE_BETWEEN_CLIPS_S / 2) keyed entries
    if cuts.isEmpty then .exit (sysExitStr "ℹ No cuts were made; exiting.")
    else .completed cuts finalOut

/-- Transcript entry for the offset-exact matcher, the findref copy
variant appended to config_transcribe.py: text, start and the
sentence_spans character-offset pairs. -/
structure PSeg where
  text : String
  start : ℚ
  sentence_spans : List (ℕ × ℕ)
  deriving DecidableEq

/-- Python slice text[o1:o2] for nonnegative offsets. -/
def pySlice (t : String) (o1 o2 : ℕ) : String :=
  String.mk ((t.toList.drop o1).take (o2 - o1))

/-- Python str.strip: whitespace removed from both ends. -/
def pyStrip (t : String) : String :=
  String.mk (((t.toList.dropWhile Char.isWhitespace).reverse.dropWhile
    Char.isWhitespace).reverse)

structure OMatch where
  sentence : String
  start : ℚ
  «end» : ℚ
  deriving DecidableEq

/-- Offset-exact matching, config_transcribe.py appended findref copy,
lines 104-114: for each sentence span, strip the slice and, when it is a
member of the query set, emit a match at the entry start plus the raw
character offsets. -/
def offsetMatches (S : List String) (seg : PSeg) : List OMatch :=
  seg.sentence_spans.filterMap (fun sp =>
    let s := pyStrip (pySlice seg.text sp.1 sp.2)
    if s ∈ S then some ⟨s, seg.start + (sp.1 : ℚ), seg.start + (sp.2 : ℚ)⟩ else none)

/-- Names bound at module level in findref.py: the imports of lines 2-7
(argparse, glob, json, os, re and the name GROUP_GAP_S pulled from
config_findref) plus the two function definitions.  The name sys is not
among them. -/
def findrefModuleGlobals : List String :=
  ["argparse", "glob", "json", "os", "re", "GROUP_GAP_S",
   "split_into_sentences", "main"]

inductive ScanResult where
  | files (fs : List String)
  | printedError (msg : String)
  | nameError (missing : String)
  deriving DecidableEq

/-- Reporting branch of findref.py lines 38-40: with no files found, the
branch evaluates the expression sys.stderr; resolving the name sys
against the module globals decides whether the diagnostic print runs or
a NameError is raised. -/
def findrefScanReport (fs : List String) : ScanResult :=
  if fs.isEmpty then
    if "sys" ∈ findrefModuleGlobals then
      ScanResult.printedError "❌ No *_sentence.json files found."
    else ScanResult.nameError "sys"
  else ScanResult.files fs

/-- The fields of a hit that the padding stage and the cut descriptors
read: everything except the (mutable) sentences list. -/
def hitCore (h : Hit) : String × String × ℚ × ℚ := (h.folder, h.file, h.start, h.«end»)

/-! Helper lemmas about the grouping sweep. -/

theorem mergeRun_end_eq (h : Hit) (ms : List Hit) : (mergeRun h ms).«end» = runEnd h ms := rfl

theorem groupHitsAux_eq_runs (thr : ℚ) (l : List Hit) :
    ∀ (h : Hit) (ms : List Hit),
      groupHitsAux thr (mergeRun h ms) l =
        (groupRunsAux thr h ms l).map (fun p => mergeRun p.1 p.2) := by
  induction l with
  | nil => intro h ms; rfl
  | cons nxt rest ih =>
    intro h ms
    simp only [groupHitsAux, groupRunsAux, mergeRun_end_eq]
    by_cases hc : nxt.start - runEnd h ms ≤ thr
    · simp only [if_pos hc]
      have h6 : (⟨(mergeRun h ms).folder, (mergeRun h ms).file, (mergeRun h ms).start,
          max (runEnd h ms) nxt.«end», (mergeRun h ms).sentences ++ nxt.sentences⟩ : Hit) =
          mergeRun h (ms ++ [nxt]) := by
        simp [mergeRun, runEnd, runSentences, List.foldl_append]
      rw [h6]
      exact ih h (ms ++ [nxt])
    · simp only [if_neg hc, List.map_cons]
      exact congrArg (List.cons (mergeRun h ms)) (ih nxt [])

theorem groupHits_eq_runs (thr : ℚ) (h : Hit) (l : List Hit) :
    groupHits thr (h :: l) =
      (groupRunsAux thr h [] l).map (fun p => mergeRun p.1 p.2) := by
  have h5 : mergeRun h [] = h := rfl
  have := groupHitsAux_eq_runs thr l h []
  rw [h5] at this
  exact this

theorem groupHitsAux_spec (thr : ℚ) (h0 : 0 ≤ thr) (l : List Hit) :
    ∀ cur : Hit, cur.start ≤ cur.«end» → (∀ x ∈ l, x.start ≤ x.«end») →
      ∃ g gs, groupHitsAux thr cur l = g :: gs ∧ g.start = cur.start ∧
        cur.«end» ≤ g.«end» ∧
        List.Pairwise (fun a b => a.«end» < b.start) (g :: gs) ∧
        ∀ x ∈ g :: gs, x.start ≤ x.«end» := by
  induction l with
  | nil =>
    intro cur hcur _
    exact ⟨cur, [], rfl, rfl, le_refl _, by simp, by simp [hcur]⟩
  | cons nxt rest ih =>
    intro cur hcur hwf
    have hnxt : nxt.start ≤ nxt.«end» := hwf nxt (by simp)
    have hrest : ∀ x ∈ rest, x.start ≤ x.«end» := fun x hx => hwf x (by simp [hx])
    simp only [groupHitsAux]
    by_cases hc : nxt.start - cur.«end» ≤ thr
    · simp only [if_pos hc]
      have hcur' : cur.start ≤ max cur.«end» nxt.«end» := le_trans hcur (le_max_left _ _)
      obtain ⟨g, gs, heq, hst, hen, hpw, hwfg⟩ :=
        ih ⟨cur.folder, cur.file, cur.start, max cur.«end» nxt.«end»,
          cur.sentences ++ nxt.sentences⟩ hcur' hrest
      exact ⟨g, gs, heq, hst, le_trans (le_max_left _ _) hen, hpw, hwfg⟩
    · simp only [if_neg hc]
      obtain ⟨g, gs, heq, hst, hen, hpw, hwfg⟩ := ih nxt hnxt hrest
      rw [heq]
      push_neg at hc
      have hcltn : cur.«end» < nxt.start := by linarith
      refine ⟨cur, g :: gs, rfl, rfl, le_refl _, ?_, ?_⟩
      · refine List.pairwise_cons.mpr ⟨?_, hpw⟩
        intro b hb
        rcases List.mem_cons.mp hb with hb | hb
        · rw [hb, hst]; exact hcltn
        · have hgb := (List.pairwise_cons.mp hpw).1 b hb
          have : cur.«end» < g.«end» :=
            lt_of_lt_of_le hcltn (le_trans hnxt hen)
          exact lt_trans this hgb
      · intro x hx
        rcases List.mem_cons.mp hx with hx | hx
        · rw [hx]; exact hcur
        · exact hwfg x hx

theorem groupRunsAux_flatten (thr : ℚ) (l : List Hit) :
    ∀ (h : Hit) (ms : List Hit),
      (groupRunsAux thr h ms l).flatMap (fun p => p.1 :: p.2) = h :: (ms ++ l) := by
  induction l with
  | nil => intro h ms; simp [groupRunsAux]
  | cons nxt rest ih =>
    intro h ms
    simp only [groupRunsAux]
    by_cases hc : nxt.start - runEnd h ms ≤ thr
    · simp only [if_pos hc, ih h (ms ++ [nxt])]
      simp
    · simp only [if_neg hc, List.flatMap_cons, ih nxt []]
      simp

theorem runEnd_eq_of_core (h h' : Hit) (ms ms' : List Hit)
    (hh : hitCore h = hitCore h') (hm : ms.map hitCore = ms'.map hitCore) :
    runEnd h ms = runEnd h' ms' := by
  have e1 : h.«end» = h'.«end» := congrArg (fun c => c.2.2.2) hh
  have e2 : ms.map (fun n => n.«end») = ms'.map (fun n => n.«end») := by
    have h3 := congrArg (List.map (fun c : String × String × ℚ × ℚ => c.2.2.2)) hm
    simpa [List.map_map, Function.comp, hitCore] using h3
  have e3 : ∀ (xs : List Hit) (a : ℚ),
      xs.foldl (fun e n => max e n.«end») a = (xs.map (fun n => n.«end»)).foldl max a := by
    intro xs
    induction xs with
    | nil => intro a; rfl
    | cons y ys ihy => intro a; simp only [List.foldl_cons, List.map_cons, ihy]
  simp only [runEnd, e3, e2, e1]

theorem groupRunsAux_core_congr (thr : ℚ) (l : List Hit) :
    ∀ (l' : List Hit) (h h' : Hit) (ms ms' : List Hit),
      hitCore h = hitCore h' → ms.map hitCore = ms'.map hitCore →
      l.map hitCore = l'.map hitCore →
      (groupRunsAux thr h ms l).map (fun p => (hitCore p.1, p.2.map hitCore)) =
        (groupRunsAux thr h' ms' l').map (fun p => (hitCore p.1, p.2.map hitCore)) := by
  induction l with
  | nil =>
    intro l' h h' ms ms' hh hm hl
    have : l' = [] := by
      cases l' with
      | nil => rfl
      | cons a b => simp at hl
    subst this
    simp [groupRunsAux, hh, hm]
  | cons nxt rest ih =>
    intro l' h h' ms ms' hh hm hl
    cases l' with
    | nil => simp at hl
    | cons nxt' rest' =>
      simp only [List.map_cons, List.cons.injEq] at hl
      obtain ⟨hn, hr⟩ := hl
      have hs : nxt.start = nxt'.start := congrArg (fun c => c.2.2.1) hn
      have he : runEnd h ms = runEnd h' ms' := runEnd_eq_of_core h h' ms ms' hh hm
      simp only [groupRunsAux]
      by_cases hc : nxt.start - runEnd h ms ≤ thr
      · have hc' : nxt'.start - runEnd h' ms' ≤ thr := by rw [← hs, ← he]; exact hc
        simp only [if_pos hc, if_pos hc']
        exact ih rest' h h' (ms ++ [nxt]) (ms' ++ [nxt']) hh
          (by simp [hm, hn]) hr
      · have hc' : ¬(nxt'.start - runEnd h' ms' ≤ thr) := by rw [← hs, ← he]; exact hc
        simp only [if_neg hc, if_neg hc', List.map_cons]
        rw [hh, hm]
        exact congrArg (List.cons (hitCore h', ms'.map hitCore))
          (ih rest' nxt nxt' [] [] hn rfl hr)

theorem groupHitsRun_snd_core (thr : ℚ) (hits : List Hit) :
    ((groupHitsRun thr hits).2).map hitCore = hits.map hitCore := by
  cases hits with
  | nil => rfl
  | cons h rest =>
    have h1 : ((groupRunsAux thr h [] rest).flatMap (fun p =>
        (⟨p.1.folder, p.1.file, p.1.start, p.1.«end», runSentences p.1 p.2⟩ : Hit) :: p.2)).map hitCore =
        ((groupRunsAux thr h [] rest).flatMap (fun p => p.1 :: p.2)).map hitCore := by
      simp only [List.map_flatMap]
      rfl
    show ((groupRunsAux thr h [] rest).flatMap (fun p =>
        (⟨p.1.folder, p.1.file, p.1.start, p.1.«end», runSentences p.1 p.2⟩ : Hit) :: p.2)).map hitCore
        = (h :: rest).map hitCore
    rw [h1, groupRunsAux_flatten thr rest h []]
    simp

theorem hitCore_mergeRun (p : Hit × List Hit) :
    hitCore (mergeRun p.1 p.2) =
      ((hitCore p.1).1, (hitCore p.1).2.1, (hitCore p.1).2.2.1,
        runEnd p.1 p.2) := rfl

theorem groupHitsRun_fst_core (thr : ℚ) (hits hits' : List Hit)
    (h : hits.map hitCore = hits'.map hitCore) :
    ((groupHitsRun thr hits).1).map hitCore = ((groupHitsRun thr hits').1).map hitCore := by
  cases hits with
  | nil =>
    have : hits' = [] := by
      cases hits' with
      | nil => rfl
      | cons a b => simp at h
    subst this; rfl
  | cons a rest =>
    cases hits' with
    | nil => simp at h
    | cons a' rest' =>
      simp only [List.map_cons, List.cons.injEq] at h
      obtain ⟨ha, hr⟩ := h
      have hruns := groupRunsAux_core_congr thr rest rest' a a' [] [] ha rfl hr
      show ((groupRunsAux thr a [] rest).map (fun p => mergeRun p.1 p.2)).map hitCore =
        ((groupRunsAux thr a' [] rest').map (fun p => mergeRun p.1 p.2)).map hitCore
      have key : ∀ (x : Hit) (xs : List Hit),
          ((groupRunsAux thr x [] xs).map (fun p => mergeRun p.1 p.2)).map hitCore =
            ((groupRunsAux thr x [] xs).map (fun p => (hitCore p.1, p.2.map hitCore))).map
              (fun q => (q.1.1, q.1.2.1, q.1.2.2.1,
                (q.2.map (fun c => c.2.2.2)).foldl max q.1.2.2.2)) := by
        intro x xs
        simp only [List.map_map]
        apply List.map_congr_left
        intro p _
        have e3 : ∀ (ys : List Hit) (b : ℚ),
            ys.foldl (fun e n => max e n.«end») b = (ys.map (fun n => n.«end»)).foldl max b := by
          intro ys
          induction ys with
          | nil => intro b; rfl
          | cons y yt ihy => intro b; simp only [List.foldl_cons, List.map_cons, ihy]
        show hitCore (mergeRun p.1 p.2) =
          ((hitCore p.1).1, (hitCore p.1).2.1, (hitCore p.1).2.2.1,
            ((p.2.map hitCore).map (fun c => c.2.2.2)).foldl max (hitCore p.1).2.2.2)
        rw [hitCore_mergeRun]
        have e4 : (p.2.map hitCore).map (fun c : String × String × ℚ × ℚ => c.2.2.2) =
            p.2.map (fun n => n.«end») := by
          simp only [List.map_map]
          rfl
        rw [e4]
        exact congrArg (fun z => ((hitCore p.1).1, (hitCore p.1).2.1, (hitCore p.1).2.2.1, z))
          (e3 p.2 p.1.«end»)
      rw [key, key, hruns]

theorem slicerCuts_core_congr (halfSil : ℚ) (keyed : String → String)
    (gs gs' : List Hit) (h : gs.map hitCore = gs'.map hitCore) :
    slicerCuts halfSil keyed gs = slicerCuts halfSil keyed gs' := by
  have key : ∀ xs : List Hit, slicerCuts halfSil keyed xs =
      (xs.map hitCore).map (fun c =>
        (⟨keyed (videoPath c.1), max 0 (c.2.2.1 - halfSil), c.2.2.2 + halfSil⟩ : Cut)) := by
    intro xs
    simp only [slicerCuts, List.map_map]
    rfl
  rw [key, key, h]

theorem lookupTimes_addTime (m : List (String × List ℚ)) (k : String) (t : ℚ) (src : String) :
    lookupTimes (addTime m k t) src =
      if k = src then lookupTimes m src ++ [t] else lookupTimes m src := by
  induction m with
  | nil =>
    simp only [addTime, lookupTimes]
    by_cases hk : k = src
    · simp [hk]
    · simp [hk]
  | cons kv r ih =>
    obtain ⟨k', v⟩ := kv
    simp only [addTime]
    by_cases h1 : k' = k
    · subst h1
      simp only [if_pos rfl, lookupTimes]
      by_cases h2 : k' = src
      · simp [h2]
      · simp [h2]
    · simp only [if_neg h1, lookupTimes]
      by_cases h2 : k' = src
      · subst h2
        have h3 : ¬ k = k' := fun he => h1 he.symm
        simp [h3, if_neg h3]
      · simp [h2, ih]

theorem videoTimes_foldl (ex : String → Bool) (src : String) (entries : List Hit) :
    ∀ m : List (String × List ℚ),
      lookupTimes (entries.foldl
        (fun m e =>
          let p := videoPath e.folder
          if ex p then addTime m p e.start else m) m) src =
      lookupTimes m src ++
        ((entries.filter (fun e =>
          ex (videoPath e.folder) && decide (videoPath e.folder = src))).map
            (fun e => e.start)) := by
  induction entries with
  | nil => intro m; simp
  | cons e rest ih =>
    intro m
    simp only [List.foldl_cons]
    by_cases hex : ex (videoPath e.folder) = true
    · rw [if_pos hex]
      by_cases hsrc : videoPath e.folder = src
      · rw [ih (addTime m (videoPath e.folder) e.start), lookupTimes_addTime, if_pos hsrc]
        rw [List.filter_cons_of_pos (by rw [hsrc] at hex; simp [hex, hsrc])]
        simp [List.append_assoc]
      · rw [ih (addTime m (videoPath e.folder) e.start), lookupTimes_addTime, if_neg hsrc]
        simp [hex, hsrc]
    · rw [if_neg hex, ih m]
      simp [hex]

/-! Claim theorems. -/

/-- C3: the grouper is a single left-to-right sweep in which a match
joins the current group exactly when its start minus the group's end —
the running maximum of member ends, as exposed by the run decomposition
groupRunsAux whose join test reads runEnd — is at most the threshold;
and on matches [10.0-10.5], [10.6-11.0], [16.0-16.4], [16.5-16.9] with
threshold 0.7 it yields exactly the groups [10.0-11.0] and [16.0-16.9]. -/
theorem c3_grouper_single_sweep :
    (∀ (thr : ℚ) (h : Hit) (l : List Hit),
      groupHits thr (h :: l) =
        (groupRunsAux thr h [] l).map (fun p => mergeRun p.1 p.2)) ∧
    groupHits (7/10)
      [⟨"A","f",10,21/2,["a"]⟩, ⟨"A","f",53/5,11,["b"]⟩,
       ⟨"A","f",16,82/5,["c"]⟩, ⟨"A","f",33/2,169/10,["d"]⟩] =
      [⟨"A","f",10,11,["a","b"]⟩, ⟨"A","f",16,169/10,["c","d"]⟩] := by
  constructor
  · exact fun thr h l => groupHits_eq_runs thr h l
  · norm_num [groupHits, groupHitsAux, max_def]

/-- C4: in offset-exact mode, every sentence-span whose stripped slice
is a query sentence yields a match whose bounds are the segment start
plus the character offsets, not the whole-segment bounds. -/
theorem c4_offset_exact_match (S : List String) (seg : PSeg) (o1 o2 : ℕ)
    (h1 : (o1, o2) ∈ seg.sentence_spans)
    (h2 : pyStrip (pySlice seg.text o1 o2) ∈ S) :
    (⟨pyStrip (pySlice seg.text o1 o2), seg.start + (o1 : ℚ), seg.start + (o2 : ℚ)⟩ : OMatch)
      ∈ offsetMatches S seg := by
  unfold offsetMatches
  rw [List.mem_filterMap]
  exact ⟨(o1, o2), h1, by simp [h2]⟩

/-- Witness for C4 on the spec's example: the segment at 100.0 with span
(13,25) over "Goodbye now." yields exactly the match at 113.0-125.0. -/
theorem c4_offset_exact_match_witness :
    ((⟨pyStrip (pySlice "Hello world. Goodbye now." 13 25),
        (100 : ℚ) + ((13 : ℕ) : ℚ), (100 : ℚ) + ((25 : ℕ) : ℚ)⟩ : OMatch) ∈
      offsetMatches ["Goodbye now."]
        ⟨"Hello world. Goodbye now.", 100, [(0,12),(13,25)]⟩) ∧
    offsetMatches ["Goodbye now."] ⟨"Hello world. Goodbye now.", 100, [(0,12),(13,25)]⟩ =
      [⟨"Goodbye now.", 113, 125⟩] :=
  ⟨c4_offset_exact_match ["Goodbye now."]
      ⟨"Hello world. Goodbye now.", 100, [(0,12),(13,25)]⟩ 13 25 (by decide) (by decide),
    by
      have h1 : pyStrip (pySlice "Hello world. Goodbye now." 0 12) = "Hello world." := by decide
      have h2 : pyStrip (pySlice "Hello world. Goodbye now." 13 25) = "Goodbye now." := by decide
      have h3 : "Hello world." ≠ "Goodbye now." := by decide
      norm_num [offsetMatches, h1, h2, h3, List.filterMap_cons]⟩

/-- C9: every padded cut descriptor produced by the slicer has a
non-negative start, since the cut start is max(0, start - halfSil). -/
theorem c9_zero_floor (halfSil : ℚ) (keyed : String → String) (entries : List Hit)
    (c : Cut) (hc : c ∈ slicerCuts halfSil keyed entries) : 0 ≤ c.cs := by
  unfold slicerCuts at hc
  obtain ⟨e, _, he⟩ := List.mem_map.mp hc
  rw [← he]
  exact le_max_left 0 _

/-- Witness for C9: an entry starting at 0.1 with half-pad 0.35 is
clamped to a cut start of exactly 0. -/
theorem c9_zero_floor_witness :
    ((⟨videoPath "A", 0, 47/20⟩ : Cut) ∈
      slicerCuts (SILENCE_BETWEEN_CLIPS_S / 2) id [⟨"A","f",1/10,2,["x"]⟩]) ∧
    0 ≤ (Cut.mk (videoPath "A") 0 (47/20)).cs :=
  have hm : (⟨videoPath "A", 0, 47/20⟩ : Cut) ∈
      slicerCuts (SILENCE_BETWEEN_CLIPS_S / 2) id [⟨"A","f",1/10,2,["x"]⟩] := by
    norm_num [slicerCuts, SILENCE_BETWEEN_CLIPS_S, max_def]
  ⟨hm, c9_zero_floor (SILENCE_BETWEEN_CLIPS_S / 2) id [⟨"A","f",1/10,2,["x"]⟩] _ hm⟩

/-- C10: the name sys is not bound in findref.py's module globals, so an
invocation in which the folder scan finds no sentence JSON files raises
NameError from the reporting branch instead of printing its diagnostic;
with files present the branch is not taken. -/
theorem c10_missing_sys_nameerror :
    "sys" ∉ findrefModuleGlobals ∧
    findrefScanReport [] = ScanResult.nameError "sys" ∧
    findrefScanReport ["a_sentence.json"] = ScanResult.files ["a_sentence.json"] :=
  ⟨by decide, by decide, by decide⟩

/-- C5: in substring mode, a query sentence yields a match for a segment
iff it occurs as a substring of the segment text, and every emitted hit
spans the entire segment (start and end equal the segment's). -/
theorem c5_substring_whole_segment (folder file : String) (S : List String)
    (seg : Seg) (s : String) (hs : s ∈ S) :
    ((∃ h ∈ segHits folder file S seg, s ∈ h.sentences) ↔
      s.toList <:+: seg.text.toList) ∧
    ∀ h ∈ segHits folder file S seg, h.start = seg.start ∧ h.«end» = seg.«end» := by
  constructor
  · constructor
    · rintro ⟨h, hh, hsh⟩
      by_cases he : (S.filter (fun x => pyIn x seg.text)).isEmpty
      · simp [segHits, he] at hh
      · simp only [segHits, he, if_neg, Bool.false_eq_true, not_false_eq_true,
          List.mem_singleton] at hh
        subst hh
        have hp := (List.mem_filter.mp hsh).2
        exact of_decide_eq_true hp
    · intro hinf
      have hp : pyIn s seg.text = true := decide_eq_true hinf
      have hmem : s ∈ S.filter (fun x => pyIn x seg.text) := List.mem_filter.mpr ⟨hs, hp⟩
      have hne : ¬ (S.filter (fun x => pyIn x seg.text)).isEmpty = true := by
        intro he
        rw [List.isEmpty_iff] at he
        rw [he] at hmem
        simp at hmem
      refine ⟨⟨folder, file, seg.start, seg.«end», S.filter (fun x => pyIn x seg.text)⟩, ?_, hmem⟩
      simp [segHits, hne]
  · intro h hh
    by_cases he : (S.filter (fun x => pyIn x seg.text)).isEmpty
    · simp [segHits, he] at hh
    · simp only [segHits, he, Bool.false_eq_true, not_false_eq_true, if_false,
        List.mem_singleton] at hh
      subst hh
      exact ⟨rfl, rfl⟩

/-- Witness for C5 on the spec's example: the query "Goodbye" matches the
segment at [100.0, 104.0] as a substring, and every emitted hit spans the
whole segment. -/
theorem c5_substring_whole_segment_witness :
    ((∃ h ∈ segHits "A" "f" ["Goodbye"] ⟨"Hello world. Goodbye now.", 100, 104⟩,
        "Goodbye" ∈ h.sentences) ↔
      "Goodbye".toList <:+: "Hello world. Goodbye now.".toList) ∧
    ∀ h ∈ segHits "A" "f" ["Goodbye"] ⟨"Hello world. Goodbye now.", 100, 104⟩,
      h.start = (100 : ℚ) ∧ h.«end» = (104 : ℚ) :=
  c5_substring_whole_segment "A" "f" ["Goodbye"]
    ⟨"Hello world. Goodbye now.", 100, 104⟩ "Goodbye" (by decide)

/-- C1 counterexample: two same-source groups at [1,2] and [2.2,3] (raw
gap 0.2) are each padded by the full half-silence 0.35 per side — there
is no min(halfPad, gap/2) clamp — so the padded intervals overlap
(second cut starts at 1.85, before the first ends at 2.35) and
padAfter(prev) + padBefore(next) = 0.7 exceeds the raw gap 0.2. -/
theorem c1_padding_counterexample :
    slicerCuts (SILENCE_BETWEEN_CLIPS_S / 2) id
      [⟨"A","f",1,2,["x"]⟩, ⟨"A","f",11/5,3,["y"]⟩] =
      [⟨"A/A.mp4", 13/20, 47/20⟩, ⟨"A/A.mp4", 37/20, 67/20⟩] ∧
    (37/20 : ℚ) < 47/20 ∧
    ((47/20 : ℚ) - 2) + ((11/5 : ℚ) - 37/20) > (11/5 : ℚ) - 2 := by
  refine ⟨?_, by norm_num, by norm_num⟩
  have hv : videoPath "A" = "A/A.mp4" := by decide
  norm_num [slicerCuts, SILENCE_BETWEEN_CLIPS_S, hv, max_def]

/-- C1 amended: the padding stage pads each side by the full half-pad
(only the start side is clamped at zero), with no neighbor-gap clamp;
consecutive padded cuts are non-overlapping provided every raw gap
between consecutive entries is at least twice the half-pad. -/
theorem c1_padding_full_halfpad (halfSil : ℚ) (keyed : String → String)
    (l : List Hit)
    (hgap : List.Chain' (fun a b => a.«end» + 2 * halfSil ≤ b.start) l) :
    List.Chain' (fun c d => c.ce ≤ d.cs) (slicerCuts halfSil keyed l) := by
  unfold slicerCuts
  rw [List.chain'_map]
  refine hgap.imp ?_
  intro a b hab
  show a.«end» + halfSil ≤ max 0 (b.start - halfSil)
  have hle : a.«end» + halfSil ≤ b.start - halfSil := by linarith
  exact le_trans hle (le_max_right 0 _)

/-- Witness for C1 amended: entries [1,2] and [3,4] have raw gap 1 which
is at least 2 times 0.35, and the resulting padded cuts do not overlap. -/
theorem c1_padding_full_halfpad_witness :
    List.Chain' (fun a b : Hit => a.«end» + 2 * ((7:ℚ)/20) ≤ b.start)
      [⟨"A","f",1,2,["x"]⟩, ⟨"A","f",3,4,["y"]⟩] ∧
    List.Chain' (fun c d : Cut => c.ce ≤ d.cs)
      (slicerCuts (7/20) id [⟨"A","f",1,2,["x"]⟩, ⟨"A","f",3,4,["y"]⟩]) :=
  have hgap : List.Chain' (fun a b : Hit => a.«end» + 2 * ((7:ℚ)/20) ≤ b.start)
      [⟨"A","f",1,2,["x"]⟩, ⟨"A","f",3,4,["y"]⟩] :=
    List.chain'_cons.mpr ⟨by norm_num, List.chain'_singleton _⟩
  ⟨hgap, c1_padding_full_halfpad (7/20) id _ hgap⟩

/-- C2 counterexample: two temporally close matches from the different
sources "A" and "B" are merged into one group that carries folder "A"
but contains source B's sentence — the grouper never consults the
source key. -/
theorem c2_cross_source_merge_counterexample :
    groupHits (7/10) [⟨"A","fa",0,1,["sa"]⟩, ⟨"B","fb",3/2,2,["sb"]⟩] =
      [⟨"A","fa",0,2,["sa","sb"]⟩] ∧
    ("A" : String) ≠ "B" := by
  refine ⟨?_, by decide⟩
  norm_num [groupHits, groupHitsAux, max_def]

/-- C2 amended: the grouping stage merges on temporal proximity alone
(the counterexample shows source keys are ignored); for a nonnegative
threshold and matches with start ≤ end, the emitted groups are pairwise
disjoint and strictly ordered by start. -/
theorem c2_groups_pairwise_disjoint (thr : ℚ) (hits : List Hit)
    (h0 : 0 ≤ thr) (hwf : ∀ x ∈ hits, x.start ≤ x.«end») :
    List.Pairwise (fun a b => a.«end» < b.start) (groupHits thr hits) := by
  cases hits with
  | nil => simp [groupHits]
  | cons h rest =>
    obtain ⟨g, gs, heq, _, _, hpw, _⟩ :=
      groupHitsAux_spec thr h0 rest h (hwf h (by simp)) (fun x hx => hwf x (by simp [hx]))
    show List.Pairwise _ (groupHitsAux thr h rest)
    rw [heq]
    exact hpw

/-- Witness for C2 amended at a concrete input with two runs. -/
theorem c2_groups_pairwise_disjoint_witness :
    List.Pairwise (fun a b : Hit => a.«end» < b.start)
      (groupHits (7/10) [⟨"A","fa",0,1,["sa"]⟩, ⟨"B","fb",3,4,["sb"]⟩]) :=
  c2_groups_pairwise_disjoint (7/10) _ (by norm_num) (by
    intro x hx
    simp only [List.mem_cons, List.mem_singleton] at hx
    rcases hx with rfl | rfl | hx
    · norm_num
    · norm_num
    · simp at hx)

/-- C6 counterexample: the grouping stage mutates its input through the
shallow dict copy — after one run the seed hit's sentences list has been
extended in place — and a second grouping run on the mutated hits
produces different groups (duplicated sentences). -/
theorem c6_mutation_counterexample :
    (groupHitsRun (7/10) [⟨"A","f",0,1,["x"]⟩, ⟨"A","f",3/2,2,["y"]⟩]).2 ≠
      [⟨"A","f",0,1,["x"]⟩, ⟨"A","f",3/2,2,["y"]⟩] ∧
    (groupHitsRun (7/10)
        ((groupHitsRun (7/10) [⟨"A","f",0,1,["x"]⟩, ⟨"A","f",3/2,2,["y"]⟩]).2)).1 ≠
      (groupHitsRun (7/10) [⟨"A","f",0,1,["x"]⟩, ⟨"A","f",3/2,2,["y"]⟩]).1 := by
  constructor
  · norm_num [groupHitsRun, groupRunsAux, runEnd, runSentences]
  · norm_num [groupHitsRun, groupRunsAux, runEnd, runSentences, mergeRun]

/-- C6 amended: although the grouping stage mutates the sentences lists
of its input (see the counterexample), the folder, file, start and end
fields are never mutated, and the padded cut-descriptor list obtained by
running grouping plus padding twice on the same hits equals the one
obtained from a single run. -/
theorem c6_descriptors_stable (thr halfSil : ℚ) (keyed : String → String)
    (hits : List Hit) :
    ((groupHitsRun thr hits).2).map hitCore = hits.map hitCore ∧
    slicerCuts halfSil keyed ((groupHitsRun thr ((groupHitsRun thr hits).2)).1) =
      slicerCuts halfSil keyed ((groupHitsRun thr hits).1) := by
  refine ⟨groupHitsRun_snd_core thr hits, ?_⟩
  exact slicerCuts_core_congr halfSil keyed _ _
    (groupHitsRun_fst_core thr _ hits (groupHitsRun_snd_core thr hits))

/-- C7 counterexample: on an empty findref result the slicer does not
exit with status zero: sys.exit is given the informational string, which
Python prints to stderr while exiting with status 1. -/
theorem c7_empty_exit_counterexample :
    slicerRun id [] "out" =
      SlicerOutcome.exit (sysExitStr "ℹ No segments found → nothing to cut.") ∧
    (sysExitStr "ℹ No segments found → nothing to cut.").code = 1 ∧
    (sysExitStr "ℹ No segments found → nothing to cut.").code ≠ 0 :=
  ⟨rfl, rfl, by decide⟩

/-- C7 amended: an empty entry list makes the slicer exit with status 1
while printing the informational message to stderr; every nonempty entry
list completes, so the later no-cuts exit of lines 112-114 is
unreachable (the cut loop emits one cut per entry). -/
theorem c7_empty_exit_status_one (keyed : String → String) (finalOut : String) :
    slicerRun keyed [] finalOut =
      SlicerOutcome.exit ⟨1, "ℹ No segments found → nothing to cut."⟩ ∧
    ∀ (e : Hit) (es : List Hit),
      slicerRun keyed (e :: es) finalOut =
        SlicerOutcome.completed
          (slicerCuts (SILENCE_BETWEEN_CLIPS_S / 2) keyed (e :: es)) finalOut := by
  constructor
  · rfl
  · intro e es
    simp [slicerRun, slicerCuts]

/-- C8 counterexample: for the single entry [10,12] the keyframe
pre-pass forces only the raw start 10.0, while the padded cut from that
source has boundary timestamps 9.65 and 12.35; neither padded boundary
is in the forced set and the forced timestamp is not a boundary, so the
two sets differ. -/
theorem c8_keyframes_counterexample :
    lookupTimes (videoTimes (fun _ => true) [⟨"A","f",10,12,["x"]⟩]) (videoPath "A") =
      [10] ∧
    slicerCuts (SILENCE_BETWEEN_CLIPS_S / 2) id [⟨"A","f",10,12,["x"]⟩] =
      [⟨videoPath "A", 193/20, 247/20⟩] ∧
    (193/20 : ℚ) ∉ ([10] : List ℚ) ∧ (247/20 : ℚ) ∉ ([10] : List ℚ) ∧
    (10 : ℚ) ∉ ([193/20, 247/20] : List ℚ) := by
  refine ⟨?_, ?_, by norm_num, by norm_num, by norm_num⟩
  · norm_num [videoTimes, addTime, lookupTimes]
  · norm_num [slicerCuts, SILENCE_BETWEEN_CLIPS_S, max_def]

/-- C8 amended: for every source video, the set of timestamps handed to
the keyframe pre-pass is exactly the raw start values of that source's
existing entries, in entry order — not the padded cut boundaries. -/
theorem c8_forced_times_are_raw_starts (ex : String → Bool) (entries : List Hit)
    (src : String) :
    lookupTimes (videoTimes ex entries) src =
      (entries.filter (fun e =>
        ex (videoPath e.folder) && decide (videoPath e.folder = src))).map
          (fun e => e.start) := by
  have h1 := videoTimes_foldl ex src entries []
  simpa [videoTimes, lookupTimes] using h1
